import Mathlib

/-!
Shallow embedding of `src/mcp_playwright/main.py` (class `PlaywrightBrowserManager`):
the session-telemetry capture-and-query engine of the playwright-consolelogs MCP
server.  Console and network buffers are Lean lists, Python dicts become
structures, Python's stable `sorted`/`list.sort` becomes a stable insertion
sort, and Python slicing `l[:n]` (including negative `n`) is modelled
explicitly.  Timestamps from the monotonic event-loop clock are modelled as
naturals.
-/

namespace PlaywrightMCP

/-- One entry of `self.console_logs`, as built by `_handle_console_message`
(`main.py` lines 91-99): keys `type`, `text`, `location`, `timestamp`.
`location` is an opaque value passed through unmodified; we model it as a
string. -/
structure ConsoleEntry where
  type : String
  text : String
  location : String
  timestamp : Nat
deriving DecidableEq, Repr

/-- One group record built by `get_console_logs` (`main.py` lines 152-160):
keys `type`, `text`, `location`, `timestamp`, `count`, `timestamps`. -/
structure ConsoleGroup where
  type : String
  text : String
  location : String
  timestamp : Nat
  count : Nat
  timestamps : List Nat
deriving DecidableEq, Repr

/-- The `response` sub-dict attached by `_handle_response`
(`main.py` lines 118-123): `status`, `statusText`, `headers`, `timestamp`.
Headers are opaque; modelled as a string. -/
structure ResponseData where
  status : Nat
  statusText : String
  headers : String
  timestamp : Nat
deriving DecidableEq, Repr

/-- One entry of `self.network_requests`, as built by `_handle_request`
(`main.py` lines 101-111), with the optional `response` key added later by
`_handle_response`.  `response = none` models the absence of the key. -/
structure NetworkEntry where
  url : String
  method : String
  headers : String
  timestamp : Nat
  resourceType : String
  id : Nat
  response : Option ResponseData
deriving DecidableEq, Repr

/-! ### Python's stable sort

`sorted(l, key=f)` and `l.sort(key=f)` are stable: entries with equal keys
keep their original relative order.  `reverse=True` sorts descending, still
keeping equal-key entries in original order.  We model both with a stable
insertion sort parameterised by the strict "must come earlier" test `lt`:
an element is inserted after every element strictly smaller than it (for the
chosen order) and before the first element not strictly smaller, hence after
earlier-arriving equals — exactly Python's stability guarantee. -/

/-- Insert `x` after every `y` with `lt y x` and before the first other one. -/
def insLt (lt : α → α → Bool) (x : α) : List α → List α
  | [] => [x]
  | y :: ys => if lt y x then y :: insLt lt x ys else x :: y :: ys

/-- Stable insertion sort by the strict test `lt`. -/
def isort (lt : α → α → Bool) : List α → List α
  | [] => []
  | x :: xs => insLt lt x (isort lt xs)

/-- Python slicing `l[:n]` for an arbitrary integer `n`:
nonnegative `n` keeps the first `n` elements; negative `n` drops the last
`-n` elements (empty when `-n` exceeds the length). -/
def pySlice (n : Int) (l : List α) : List α :=
  if 0 ≤ n then l.take n.toNat else l.take ((l.length : Int) + n).toNat

/-- Key test for `sorted(self.console_logs, key=lambda x: x.get('timestamp', 0))`
(`main.py` line 144): ascending by timestamp. -/
def consoleLtAsc (a b : ConsoleEntry) : Bool := decide (a.timestamp < b.timestamp)

/-- Key test for `deduplicated_logs.sort(key=..., reverse=True)`
(`main.py` line 172): descending by timestamp. -/
def groupLtDesc (a b : ConsoleGroup) : Bool := decide (b.timestamp < a.timestamp)

/-- Key test for `deduplicated_logs.sort(key=...)` (`main.py` line 175):
ascending by timestamp. -/
def groupLtAsc (a b : ConsoleGroup) : Bool := decide (a.timestamp < b.timestamp)

/-- Key test for `sorted(self.network_requests, key=..., reverse=True)`
(`main.py` line 193): descending by timestamp. -/
def netLtDesc (a b : NetworkEntry) : Bool := decide (b.timestamp < a.timestamp)

/-- Key test for `limited_requests.sort(key=...)` (`main.py` line 197):
ascending by timestamp. -/
def netLtAsc (a b : NetworkEntry) : Bool := decide (a.timestamp < b.timestamp)

/-- The fresh group dict started at `main.py` lines 153-160. -/
def mkGroup (log : ConsoleEntry) : ConsoleGroup :=
  { type := log.type
    text := log.text
    location := log.location
    timestamp := log.timestamp
    count := 1
    timestamps := [log.timestamp] }

/-- One iteration of the grouping loop of `get_console_logs`
(`main.py` lines 146-168).  The accumulator is `deduplicated_logs` in
reverse order, whose head is `current_group` (Python mutates the group dict
in place, which is the same object as the last appended list element).
A new group starts when there is no current group or the incoming log
differs from the current group in `type` or in (the possibly already
rewritten) `text`; otherwise the count is bumped, the timestamp appended,
and — since the bumped count always exceeds 1 — the text is rewritten to
`"<log text> (repeated <count> times)"`. -/
def dedupStep (acc : List ConsoleGroup) (log : ConsoleEntry) : List ConsoleGroup :=
  match acc with
  | [] => [mkGroup log]
  | g :: rest =>
    if log.type = g.type ∧ log.text = g.text then
      let c := g.count + 1
      { g with
          count := c
          timestamps := g.timestamps ++ [log.timestamp]
          text := if c > 1 then s!"{log.text} (repeated {c} times)" else g.text } :: rest
    else
      mkGroup log :: g :: rest

/-- The full grouping pass of `get_console_logs` (`main.py` lines 139-168):
the list `deduplicated_logs` in append order, before windowing. -/
def dedupGroups (sorted_logs : List ConsoleEntry) : List ConsoleGroup :=
  (List.foldl dedupStep [] sorted_logs).reverse

/-- `PlaywrightBrowserManager.get_console_logs` (`main.py` lines 126-177) as a
function of `last_n` and the stored `self.console_logs`:
empty buffer short-circuits to `[]`; otherwise sort ascending by timestamp,
group consecutive repeats, sort the groups descending by timestamp, slice
`[:last_n]`, and sort the kept groups back ascending. -/
def get_console_logs (last_n : Int) (console_logs : List ConsoleEntry) : List ConsoleGroup :=
  if console_logs.isEmpty then []
  else
    let sorted_logs := isort consoleLtAsc console_logs
    let deduplicated_logs := dedupGroups sorted_logs
    let descSorted := isort groupLtDesc deduplicated_logs
    let limited := pySlice last_n descSorted
    isort groupLtAsc limited

/-- `PlaywrightBrowserManager.get_network_requests` (`main.py` lines 179-199)
as a function of `last_n` and the stored `self.network_requests`:
empty buffer short-circuits to `[]`; otherwise sort descending by timestamp,
slice `[:last_n]`, and sort the kept entries back ascending. -/
def get_network_requests (last_n : Int) (network_requests : List NetworkEntry) :
    List NetworkEntry :=
  if network_requests.isEmpty then []
  else
    let sorted_requests := isort netLtDesc network_requests
    let limited_requests := pySlice last_n sorted_requests
    isort netLtAsc limited_requests

/-- `PlaywrightBrowserManager._handle_response` (`main.py` lines 113-124) as a
function of the response's url and data and the stored `self.network_requests`:
scan in order for the first entry with equal url and no `response` key,
attach the response there and stop (`break`); if none matches, the list is
returned unchanged. -/
def handle_response (url : String) (rd : ResponseData) :
    List NetworkEntry → List NetworkEntry
  | [] => []
  | e :: rest =>
    if e.url = url ∧ e.response = none then { e with response := some rd } :: rest
    else e :: handle_response url rd rest

/-! ### Session state and lifecycle -/

/-- The mutable fields of `PlaywrightBrowserManager` (`main.py` lines 17-24).
The `playwright`, `browser` and `page` handles are opaque; only their
presence (`None` or not) matters to the lifecycle logic, so each is a `Bool`. -/
structure SessionState where
  playwright : Bool
  browser : Bool
  page : Bool
  console_logs : List ConsoleEntry
  network_requests : List NetworkEntry
  is_initialized : Bool
deriving DecidableEq, Repr

/-- External release calls made by `close` on the underlying engine, in the
order they appear in the code. -/
inductive ReleaseAction where
  | closePage
  | closeBrowser
  | stopPlaywright
deriving DecidableEq, Repr

/-- `PlaywrightBrowserManager.close` (`main.py` lines 42-58): release the page,
the browser and the engine handle in that order, each guarded by presence;
then reset `is_initialized` and clear both buffers.  Returns the new state
and the trace of release calls actually issued. -/
def close (s : SessionState) : SessionState × List ReleaseAction :=
  let p1 := if s.page then ({ s with page := false }, [ReleaseAction.closePage])
            else (s, [])
  let p2 := if p1.1.browser then
              ({ p1.1 with browser := false }, p1.2 ++ [ReleaseAction.closeBrowser])
            else p1
  let p3 := if p2.1.playwright then
              ({ p2.1 with playwright := false }, p2.2 ++ [ReleaseAction.stopPlaywright])
            else p2
  ({ p3.1 with is_initialized := false, console_logs := [], network_requests := [] },
   p3.2)

/-- `PlaywrightBrowserManager.initialize` (`main.py` lines 26-40): a no-op when
already initialized, otherwise acquire the engine and browser handles and set
the flag. -/
def initialize_manager (s : SessionState) : SessionState :=
  if s.is_initialized then s
  else { s with playwright := true, browser := true, is_initialized := true }

/-- `PlaywrightBrowserManager.open_url` (`main.py` lines 60-89), state effect:
initialize if needed, close any existing page, clear both buffers, create a
new page (subscription and navigation touch no modelled state). -/
def open_url (s : SessionState) : SessionState :=
  let s1 := initialize_manager s
  let s2 := if s1.page then { s1 with page := false } else s1
  let s3 := { s2 with console_logs := [], network_requests := [] }
  { s3 with page := true }

/-- `PlaywrightBrowserManager._handle_console_message` (`main.py` lines 91-99),
state effect: append the new entry to `self.console_logs`. -/
def handle_console_message (e : ConsoleEntry) (s : SessionState) : SessionState :=
  { s with console_logs := s.console_logs ++ [e] }

/-- `PlaywrightBrowserManager._handle_request` (`main.py` lines 101-111),
state effect: append the new entry to `self.network_requests`. -/
def handle_request (e : NetworkEntry) (s : SessionState) : SessionState :=
  { s with network_requests := s.network_requests ++ [e] }

/-! ### Buffer orderings

Entries are appended with a monotonic clock, so the stored buffers carry
strictly increasing timestamps; the sortedness hypotheses below express
that buffer invariant. -/

/-- Console buffer invariant: timestamps strictly increase along the list. -/
def StrictAscE (l : List ConsoleEntry) : Prop :=
  l.Pairwise fun a b => a.timestamp < b.timestamp

/-- Group-list ordering: timestamps strictly increase along the list. -/
def StrictAscG (l : List ConsoleGroup) : Prop :=
  l.Pairwise fun a b => a.timestamp < b.timestamp

/-- Network buffer invariant: timestamps strictly increase along the list. -/
def StrictAscN (l : List NetworkEntry) : Prop :=
  l.Pairwise fun a b => a.timestamp < b.timestamp

instance (l : List ConsoleEntry) : Decidable (StrictAscE l) := by
  unfold StrictAscE; infer_instance

instance (l : List ConsoleGroup) : Decidable (StrictAscG l) := by
  unfold StrictAscG; infer_instance

instance (l : List NetworkEntry) : Decidable (StrictAscN l) := by
  unfold StrictAscN; infer_instance

/-! ### Heap model of the query methods

Python lists are mutable heap objects; `get_console_logs` and
`get_network_requests` call `list.sort()` — an in-place mutation — but only
on freshly allocated lists (`sorted(...)` copies, slicing copies, and the
group records are fresh dicts).  To state the frame property honestly we
model the heap: a store of list cells addressed by naturals, with the
session buffer living in cell `0`.  `sorted(...)` and slicing allocate,
`.sort()` writes in place. -/

/-- A heap of list-valued cells.  `next` is the lowest unallocated address;
the session buffer occupies an address below `next` (cell `0` in the
theorems). -/
structure Store (α : Type) where
  mem : Nat → List α
  next : Nat

/-- Dereference a cell. -/
def Store.read (st : Store α) (r : Nat) : List α := st.mem r

/-- Allocate a fresh cell holding `v`, returning the new store and the
address. -/
def Store.alloc (st : Store α) (v : List α) : Store α × Nat :=
  ({ mem := Function.update st.mem st.next v, next := st.next + 1 }, st.next)

/-- Overwrite a cell in place (Python `list.sort()`). -/
def Store.write (st : Store α) (r : Nat) (v : List α) : Store α :=
  { st with mem := Function.update st.mem r v }

/-- `get_console_logs` (`main.py` lines 126-177) against the heap, statement
by statement: read `self.console_logs` (cell `0`); allocate
`deduplicated_logs = []` (line 140); allocate `sorted_logs = sorted(...)`
(line 144); the grouping loop fills `deduplicated_logs` (lines 146-168);
`deduplicated_logs.sort(reverse=True)` mutates it in place (line 172);
slicing allocates a fresh list (line 173); `.sort()` mutates that fresh list
in place (line 175); return its contents. -/
def get_console_logs_heap (last_n : Int) (se : Store ConsoleEntry)
    (sg : Store ConsoleGroup) :
    List ConsoleGroup × Store ConsoleEntry × Store ConsoleGroup :=
  let buf := se.read 0
  if buf.isEmpty then ([], se, sg)
  else
    let a1 := sg.alloc []
    let a2 := se.alloc (isort consoleLtAsc buf)
    let sg2 := a1.1.write a1.2 (dedupGroups (a2.1.read a2.2))
    let sg3 := sg2.write a1.2 (isort groupLtDesc (sg2.read a1.2))
    let a3 := sg3.alloc (pySlice last_n (sg3.read a1.2))
    let sg5 := a3.1.write a3.2 (isort groupLtAsc (a3.1.read a3.2))
    (sg5.read a3.2, a2.1, sg5)

/-- `get_network_requests` (`main.py` lines 179-199) against the heap:
read `self.network_requests` (cell `0`); allocate
`sorted_requests = sorted(...)` (line 193); slicing allocates
`limited_requests` (line 195); `limited_requests.sort()` mutates it in place
(line 197); return its contents. -/
def get_network_requests_heap (last_n : Int) (st : Store NetworkEntry) :
    List NetworkEntry × Store NetworkEntry :=
  let buf := st.read 0
  if buf.isEmpty then ([], st)
  else
    let a1 := st.alloc (isort netLtDesc buf)
    let a2 := a1.1.alloc (pySlice last_n (a1.1.read a1.2))
    let st3 := a2.1.write a2.2 (isort netLtAsc (a2.1.read a2.2))
    (st3.read a2.2, st3)

/-! ### Concrete fixtures for the worked examples -/

/-- `(info, "a")` observed at time 0. -/
def exA0 : ConsoleEntry := ⟨"info", "a", "locA0", 0⟩

/-- `(info, "a")` observed at time 1. -/
def exA1 : ConsoleEntry := ⟨"info", "a", "locA1", 1⟩

/-- `(info, "b")` observed at time 2. -/
def exB2 : ConsoleEntry := ⟨"info", "b", "locB2", 2⟩

/-- `(info, "a")` observed at time 3. -/
def exA3 : ConsoleEntry := ⟨"info", "a", "locA3", 3⟩

/-- `(info, "a")` observed at time 2, third member of a three-long run. -/
def exA2 : ConsoleEntry := ⟨"info", "a", "locA2", 2⟩

/-- Request R1: first same-URL request, no response yet. -/
def req1 : NetworkEntry := ⟨"https://x/api", "GET", "hdr1", 0, "xhr", 1, none⟩

/-- Request R2: second same-URL request, no response yet. -/
def req2 : NetworkEntry := ⟨"https://x/api", "GET", "hdr2", 1, "xhr", 2, none⟩

/-- A request for a different URL. -/
def reqOther : NetworkEntry := ⟨"https://x/other", "GET", "hdr0", 0, "xhr", 3, none⟩

/-- A concrete response for `https://x/api` observed at time 2. -/
def respX : ResponseData := ⟨200, "OK", "rhdr", 2⟩

/-- Network exchange observed at time 0. -/
def reqT0 : NetworkEntry := ⟨"https://x/a", "GET", "h0", 0, "doc", 4, none⟩

/-- Network exchange observed at time 1. -/
def reqT1 : NetworkEntry := ⟨"https://x/b", "GET", "h1", 1, "doc", 5, none⟩

/-- Concrete console-entry heap: the buffer `[exA0]` in cell 0. -/
def seW : Store ConsoleEntry := ⟨fun _ => [exA0], 1⟩

/-- Concrete group heap with nothing allocated. -/
def sgW : Store ConsoleGroup := ⟨fun _ => [], 0⟩

/-- Concrete network heap: the buffer `[reqT0, reqT1]` in cell 0. -/
def snW : Store NetworkEntry := ⟨fun _ => [reqT0, reqT1], 1⟩

/-! ### Lemmas about the stable sort -/

/-- Inserting an element strictly above everything in the list lands at the
end. -/
theorem insLt_of_all_lt (lt : α → α → Bool) (x : α) (l : List α)
    (h : ∀ y ∈ l, lt y x = true) : insLt lt x l = l ++ [x] := by
  induction l with
  | nil => rfl
  | cons y ys ih =>
    simp only [insLt, h y (List.mem_cons_self y ys), if_true]
    rw [ih fun z hz => h z (List.mem_cons_of_mem y hz)]
    rfl

/-- Sorting a list that is already in order (no adjacent pair out of order)
is the identity. -/
theorem isort_eq_self (lt : α → α → Bool) (l : List α)
    (h : l.Chain' fun a b => lt b a = false) : isort lt l = l := by
  induction l with
  | nil => rfl
  | cons x xs ih =>
    rw [isort, ih h.tail]
    cases xs with
    | nil => rfl
    | cons y ys =>
      have hxy : lt y x = false := List.chain'_cons.mp h |>.1
      simp [insLt, hxy]

/-- Sorting a list whose every earlier element is strictly above every later
one reverses it. -/
theorem isort_eq_reverse (lt : α → α → Bool) (l : List α)
    (h : l.Pairwise fun a b => lt b a = true) : isort lt l = l.reverse := by
  induction l with
  | nil => rfl
  | cons x xs ih =>
    rw [isort, ih (List.Pairwise.of_cons h), List.reverse_cons]
    exact insLt_of_all_lt lt x xs.reverse fun y hy =>
      (List.pairwise_cons.mp h).1 y (List.mem_reverse.mp hy)

/-- Appending console events one by one appends them to the stored log. -/
theorem foldl_console_logs (es : List ConsoleEntry) (s : SessionState) :
    (List.foldl (fun st e => handle_console_message e st) s es).console_logs =
      s.console_logs ++ es := by
  induction es generalizing s with
  | nil => simp
  | cons e es ih =>
    rw [List.foldl_cons, ih]
    simp [handle_console_message]

/-- `dedupStep` never changes the timestamp of a surviving group and only ever
adds groups stamped with the incoming log's timestamp. -/
theorem dedupStep_timestamps (acc : List ConsoleGroup) (log : ConsoleEntry) :
    ∀ g ∈ dedupStep acc log,
      g.timestamp = log.timestamp ∨ ∃ g₀ ∈ acc, g.timestamp = g₀.timestamp := by
  intro g hg
  cases acc with
  | nil =>
    simp only [dedupStep, List.mem_singleton] at hg
    exact Or.inl (hg ▸ rfl)
  | cons g₀ rest =>
    by_cases hc : log.type = g₀.type ∧ log.text = g₀.text
    · simp only [dedupStep, if_pos hc, List.mem_cons] at hg
      rcases hg with hg | hg
      · exact Or.inr ⟨g₀, List.mem_cons_self _ _, hg ▸ rfl⟩
      · exact Or.inr ⟨g, List.mem_cons_of_mem _ hg, rfl⟩
    · simp only [dedupStep, if_neg hc, List.mem_cons] at hg
      rcases hg with hg | hg | hg
      · exact Or.inl (hg ▸ rfl)
      · exact Or.inr ⟨g₀, List.mem_cons_self _ _, hg ▸ rfl⟩
      · exact Or.inr ⟨g, List.mem_cons_of_mem _ hg, rfl⟩

/-- Invariant of the grouping fold: if the accumulated (reversed) group list
has strictly decreasing timestamps, all below the incoming strictly
increasing logs, the fold keeps the accumulated list strictly decreasing. -/
theorem foldl_dedupStep_pairwise (logs : List ConsoleEntry) :
    ∀ acc : List ConsoleGroup,
      StrictAscE logs →
      acc.Pairwise (fun a b => b.timestamp < a.timestamp) →
      (∀ g ∈ acc, ∀ e ∈ logs, g.timestamp < e.timestamp) →
      (List.foldl dedupStep acc logs).Pairwise
        fun a b => b.timestamp < a.timestamp := by
  induction logs with
  | nil => intro acc _ hacc _; simpa using hacc
  | cons e es ih =>
    intro acc hlogs hacc hcross
    rw [List.foldl_cons]
    have hes : StrictAscE es := List.Pairwise.of_cons hlogs
    have he_lt : ∀ e' ∈ es, e.timestamp < e'.timestamp :=
      (List.pairwise_cons.mp hlogs).1
    have hmem := dedupStep_timestamps acc e
    have hcross' : ∀ g ∈ dedupStep acc e, ∀ e' ∈ es, g.timestamp < e'.timestamp := by
      intro g hg e' he'
      rcases hmem g hg with h | ⟨g₀, hg₀, h⟩
      · exact h ▸ he_lt e' he'
      · exact h ▸ hcross g₀ hg₀ e' (List.mem_cons_of_mem _ he')
    have hstep : (dedupStep acc e).Pairwise fun a b => b.timestamp < a.timestamp := by
      cases acc with
      | nil => simp [dedupStep]
      | cons g₀ rest =>
        by_cases hc : e.type = g₀.type ∧ e.text = g₀.text
        · simp only [dedupStep, if_pos hc]
          rw [List.pairwise_cons] at hacc ⊢
          exact ⟨fun b hb => hacc.1 b hb, hacc.2⟩
        · simp only [dedupStep, if_neg hc]
          rw [List.pairwise_cons]
          refine ⟨fun b hb => ?_, hacc⟩
          rcases List.mem_cons.mp hb with hb | hb
          · exact hb ▸ hcross g₀ (List.mem_cons_self _ _) e (List.mem_cons_self _ _)
          · exact hcross b (List.mem_cons_of_mem _ hb) e (List.mem_cons_self _ _)
    exact ih (dedupStep acc e) hes hstep hcross'

/-- Grouping a strictly ascending console buffer yields groups with strictly
ascending timestamps (each group is stamped with its first member's time). -/
theorem dedupGroups_strictAsc (logs : List ConsoleEntry) (h : StrictAscE logs) :
    StrictAscG (dedupGroups logs) := by
  have := foldl_dedupStep_pairwise logs [] h (by simp) (by simp)
  unfold StrictAscG dedupGroups
  rw [List.pairwise_reverse]
  exact this

/-- Descending stable sort of a strictly-ascending-keyed list reverses it. -/
theorem isortDesc_eq_reverse (key : α → Nat) (l : List α)
    (h : l.Pairwise fun a b => key a < key b) :
    isort (fun a b => decide (key b < key a)) l = l.reverse :=
  isort_eq_reverse _ l (h.imp fun hab => decide_eq_true hab)

/-- Ascending stable sort of a strictly-descending-keyed list reverses it. -/
theorem isortAsc_eq_reverse (key : α → Nat) (l : List α)
    (h : l.Pairwise fun a b => key b < key a) :
    isort (fun a b => decide (key a < key b)) l = l.reverse :=
  isort_eq_reverse _ l (h.imp fun hab => decide_eq_true hab)

/-- Ascending stable sort of a strictly-ascending-keyed list is the identity. -/
theorem isortAsc_eq_self (key : α → Nat) (l : List α)
    (h : l.Pairwise fun a b => key a < key b) :
    isort (fun a b => decide (key a < key b)) l = l :=
  isort_eq_self _ l (h.imp fun hab => decide_eq_false (Nat.not_lt.mpr (Nat.le_of_lt hab))).chain'

/-- The shared windowing pipeline of both query methods: sort descending by
key, slice `[:n]`, sort back ascending.  On a strictly-ascending-keyed
buffer this keeps a final segment of the buffer: the last `n` elements for
nonnegative `n`, and all but the last `-n` elements for negative `n`. -/
theorem window_pipeline (key : α → Nat) (l : List α) (n : Int)
    (h : l.Pairwise fun a b => key a < key b) :
    isort (fun a b => decide (key a < key b))
        (pySlice n (isort (fun a b => decide (key b < key a)) l)) =
      l.drop (if 0 ≤ n then l.length - n.toNat else (-n).toNat) := by
  rw [isortDesc_eq_reverse key l h]
  have hasc : ∀ m : Nat,
      isort (fun a b => decide (key a < key b)) ((l.drop m).reverse) = l.drop m := by
    intro m
    rw [isortAsc_eq_reverse key ((l.drop m).reverse)
      (List.pairwise_reverse.mpr (h.sublist (List.drop_sublist m l))),
      List.reverse_reverse]
  by_cases hn : 0 ≤ n
  · rw [if_pos hn]
    unfold pySlice
    rw [if_pos hn, List.take_reverse, hasc]
  · rw [if_neg hn]
    unfold pySlice
    rw [if_neg hn]
    have hlen : ((l.reverse.length : Int) + n).toNat = l.length - (-n).toNat := by
      rw [List.length_reverse]
      omega
    rw [hlen, List.take_reverse, hasc]
    by_cases hk : (-n).toNat ≤ l.length
    · congr 1
      omega
    · rw [List.drop_of_length_le (by omega), List.drop_of_length_le (by omega)]

/-- `get_console_logs` on a strictly-ascending buffer keeps a final segment of
the grouped list: the last `last_n` groups for nonnegative `last_n`, all but
the last `-last_n` groups for negative `last_n`. -/
theorem get_console_logs_eq_drop (last_n : Int) (logs : List ConsoleEntry)
    (h : StrictAscE logs) :
    get_console_logs last_n logs =
      (dedupGroups logs).drop
        (if 0 ≤ last_n then (dedupGroups logs).length - last_n.toNat
         else (-last_n).toNat) := by
  unfold get_console_logs
  by_cases he : logs.isEmpty
  · rw [if_pos he]
    have : logs = [] := List.isEmpty_iff.mp he
    subst this
    simp [dedupGroups]
  · rw [if_neg he]
    have hsorted : isort consoleLtAsc logs = logs :=
      isortAsc_eq_self ConsoleEntry.timestamp logs h
    show isort groupLtAsc
        (pySlice last_n (isort groupLtDesc (dedupGroups (isort consoleLtAsc logs)))) = _
    rw [hsorted]
    exact window_pipeline ConsoleGroup.timestamp (dedupGroups logs) last_n
      (dedupGroups_strictAsc logs h)

/-- `get_network_requests` on a strictly-ascending buffer keeps a final
segment of the buffer: the last `last_n` entries for nonnegative `last_n`,
all but the last `-last_n` entries for negative `last_n`. -/
theorem get_network_requests_eq_drop (last_n : Int) (reqs : List NetworkEntry)
    (h : StrictAscN reqs) :
    get_network_requests last_n reqs =
      reqs.drop
        (if 0 ≤ last_n then reqs.length - last_n.toNat else (-last_n).toNat) := by
  unfold get_network_requests
  by_cases he : reqs.isEmpty
  · rw [if_pos he]
    have : reqs = [] := List.isEmpty_iff.mp he
    subst this
    simp
  · rw [if_neg he]
    exact window_pipeline NetworkEntry.timestamp reqs last_n h

/-! ### Lemmas about response matching -/

/-- When no entry matches (equal url with `response` still absent), the scan
falls off the end of the list and the buffer is returned unchanged. -/
theorem handle_response_of_no_match (url : String) (rd : ResponseData)
    (l : List NetworkEntry) (h : ∀ x ∈ l, ¬(x.url = url ∧ x.response = none)) :
    handle_response url rd l = l := by
  induction l with
  | nil => rfl
  | cons e rest ih =>
    rw [handle_response, if_neg (h e (List.mem_cons_self e rest)),
      ih fun x hx => h x (List.mem_cons_of_mem e hx)]

/-- The scan attaches the response to the first matching entry and stops. -/
theorem handle_response_first_match (url : String) (rd : ResponseData)
    (pre : List NetworkEntry) (e : NetworkEntry) (post : List NetworkEntry)
    (hpre : ∀ x ∈ pre, ¬(x.url = url ∧ x.response = none))
    (hurl : e.url = url) (hresp : e.response = none) :
    handle_response url rd (pre ++ e :: post) =
      pre ++ { e with response := some rd } :: post := by
  induction pre with
  | nil => simp [handle_response, hurl, hresp]
  | cons p pre' ih =>
    rw [List.cons_append, handle_response,
      if_neg (hpre p (List.mem_cons_self p pre')),
      ih fun x hx => hpre x (List.mem_cons_of_mem p hx), List.cons_append]

/-- An entry that already carries a response is never touched by the scan:
it keeps its position and its value. -/
theorem handle_response_preserves_some (url : String) (rd : ResponseData) :
    ∀ (l : List NetworkEntry) (i : Nat) (x : NetworkEntry),
      l[i]? = some x → x.response ≠ none → (handle_response url rd l)[i]? = some x := by
  intro l
  induction l with
  | nil => intro i x hx _; simp at hx
  | cons e rest ih =>
    intro i x hx hsome
    by_cases hc : e.url = url ∧ e.response = none
    · rw [handle_response, if_pos hc]
      cases i with
      | zero =>
        simp only [List.getElem?_cons_zero, Option.some_inj] at hx
        exact absurd (hx ▸ hc.2) hsome
      | succ j =>
        simpa using (by simpa using hx : rest[j]? = some x)
    · rw [handle_response, if_neg hc]
      cases i with
      | zero => simpa using hx
      | succ j =>
        simpa using ih j x (by simpa using hx) hsome

/-! ## Claim theorems -/

/-- C4: on the concrete console buffer
`[(info,"a"@0), (info,"a"@1), (info,"b"@2), (info,"a"@3)]`,
`getConsoleLogs 10` yields exactly three groups —
`{text := "a (repeated 2 times)", count := 2}` carrying the first member's
location and timestamp, then `{text := "b", count := 1}`, then
`{text := "a", count := 1}` — in that order, and `getConsoleLogs 1` on the
same buffer returns only the last group. -/
theorem console_dedup_worked_example :
    get_console_logs 10 [exA0, exA1, exB2, exA3] =
      [⟨"info", "a (repeated 2 times)", "locA0", 0, 2, [0, 1]⟩,
       ⟨"info", "b", "locB2", 2, 1, [2]⟩,
       ⟨"info", "a", "locA3", 3, 1, [3]⟩] ∧
    get_console_logs 1 [exA0, exA1, exB2, exA3] =
      [⟨"info", "a", "locA3", 3, 1, [3]⟩] := by
  constructor <;> rfl

/-- C1 (code behaviour at the failing input): a maximal run of three
identical `(info, "a")` entries does not collapse to one record of count 3
with text `"a (repeated 3 times)"`; the grouping produces two records
(counts 2 and 1), because the run-continuation test compares the incoming
text against the group text already rewritten to `"a (repeated 2 times)"`. -/
theorem dedup_splits_run_of_three :
    get_console_logs 10 [exA0, exA1, exA2] =
      [⟨"info", "a (repeated 2 times)", "locA0", 0, 2, [0, 1]⟩,
       ⟨"info", "a", "locA2", 2, 1, [2]⟩] := by
  rfl

/-- C2 (counterexample): `getNetworkRequests (-1)` on a two-exchange buffer
does not fail with `InvalidArgument` — it returns a partial result (exactly
one of the two stored exchanges) — and `getConsoleLogs 0` quietly returns
the empty list; no `lastN` validation exists in the code. -/
theorem nonpositive_lastN_counterexample :
    get_network_requests (-1) [reqT0, reqT1] = [reqT1] ∧
    get_console_logs 0 [exA0] = [] := by
  constructor <;> rfl

/-- C2 (amended): the queries perform no `lastN` validation and never fail:
on a strictly-ascending buffer, `lastN = 0` returns the empty list, and
negative `lastN = -k` returns the buffer (its grouped view, for console)
with the `k` oldest elements removed — a partial result. -/
theorem nonpositive_lastN_no_validation (n : Int) (logs : List ConsoleEntry)
    (reqs : List NetworkEntry) (hl : StrictAscE logs) (hr : StrictAscN reqs)
    (hn : n ≤ 0) :
    get_console_logs n logs =
      (if n = 0 then [] else (dedupGroups logs).drop (-n).toNat) ∧
    get_network_requests n reqs =
      (if n = 0 then [] else reqs.drop (-n).toNat) := by
  rcases eq_or_lt_of_le hn with h0 | hlt
  · subst h0
    rw [if_pos rfl, if_pos rfl]
    constructor
    · rw [get_console_logs_eq_drop 0 logs hl]
      simp
    · rw [get_network_requests_eq_drop 0 reqs hr]
      simp
  · have hne : n ≠ 0 := ne_of_lt hlt
    rw [if_neg hne, if_neg hne]
    constructor
    · rw [get_console_logs_eq_drop n logs hl, if_neg (not_le.mpr hlt)]
    · rw [get_network_requests_eq_drop n reqs hr, if_neg (not_le.mpr hlt)]

/-- Witness for the amended C2 at `lastN = -1`: the console query drops its
single group and the network query keeps only the newest of two exchanges. -/
theorem nonpositive_lastN_no_validation_witness :
    (-1 : Int) ≤ 0 ∧
    get_console_logs (-1) [exA0] =
      (if (-1 : Int) = 0 then [] else (dedupGroups [exA0]).drop 1) ∧
    get_network_requests (-1) [reqT0, reqT1] =
      (if (-1 : Int) = 0 then [] else List.drop 1 [reqT0, reqT1]) :=
  ⟨by decide,
   (nonpositive_lastN_no_validation (-1) [exA0] [reqT0, reqT1]
      (by decide) (by decide) (by decide)).1,
   (nonpositive_lastN_no_validation (-1) [exA0] [reqT0, reqT1]
      (by decide) (by decide) (by decide)).2⟩

/-- C3: a response attaches to the earliest stored exchange whose url equals
the response's url and whose response is still absent (the scan stops at the
first hit); an exchange already carrying a response is never touched — so at
most one response is ever attached to a given exchange; and on the concrete
scenario of same-URL requests R1 (t=0), R2 (t=1) with one response, R1 gets
the response and R2 stays unmatched. -/
theorem response_attaches_earliest_unmatched :
    (∀ (url : String) (rd : ResponseData) (pre : List NetworkEntry)
        (e : NetworkEntry) (post : List NetworkEntry),
        (∀ x ∈ pre, ¬(x.url = url ∧ x.response = none)) →
        e.url = url → e.response = none →
        handle_response url rd (pre ++ e :: post) =
          pre ++ { e with response := some rd } :: post) ∧
    (∀ (url : String) (rd : ResponseData) (l : List NetworkEntry) (i : Nat)
        (x : NetworkEntry),
        l[i]? = some x → x.response ≠ none →
        (handle_response url rd l)[i]? = some x) ∧
    handle_response "https://x/api" respX [req1, req2] =
      [{ req1 with response := some respX }, req2] :=
  ⟨handle_response_first_match,
   fun url rd => handle_response_preserves_some url rd,
   by rfl⟩

/-- Witness for C3: with an unrelated exchange in front, the response lands
on the first same-URL unmatched exchange and the later duplicate stays
unmatched. -/
theorem response_attaches_earliest_unmatched_witness :
    handle_response "https://x/api" respX ([reqOther] ++ req1 :: [req2]) =
      [reqOther] ++ { req1 with response := some respX } :: [req2] :=
  response_attaches_earliest_unmatched.1 "https://x/api" respX
    [reqOther] req1 [req2] (by decide) (by decide) (by decide)

/-- C9: when no stored exchange has the response's url with response still
absent, the scan falls off the end of the loop, discarding the response and
leaving the network log completely unchanged (the silent-drop policy; the
embedded scan is total, so nothing is raised). -/
theorem response_silent_drop (url : String) (rd : ResponseData)
    (l : List NetworkEntry)
    (h : ∀ x ∈ l, ¬(x.url = url ∧ x.response = none)) :
    handle_response url rd l = l :=
  handle_response_of_no_match url rd l h

/-- Witness for C9: a buffer whose entries miss on url or already carry a
response is returned unchanged. -/
theorem response_silent_drop_witness :
    handle_response "https://x/api" respX
        [reqT0, { req1 with response := some respX }] =
      [reqT0, { req1 with response := some respX }] :=
  response_silent_drop "https://x/api" respX
    [reqT0, { req1 with response := some respX }] (by decide)

/-- C7: for a strictly-ascending network buffer and positive `lastN`,
`getNetworkRequests` returns exactly the final `lastN` stored exchanges
(matched or unmatched alike, since no filtering occurs), in stored
oldest-first order. -/
theorem network_lastN_most_recent (last_n : Int) (reqs : List NetworkEntry)
    (h : StrictAscN reqs) (hn : 0 < last_n) :
    get_network_requests last_n reqs =
      reqs.drop (reqs.length - last_n.toNat) := by
  rw [get_network_requests_eq_drop last_n reqs h, if_pos (le_of_lt hn)]

/-- Witness for C7: of two stored exchanges, `lastN = 1` keeps exactly the
most recent one. -/
theorem network_lastN_most_recent_witness :
    get_network_requests 1 [reqT0, reqT1] = [reqT1] := by
  simpa using network_lastN_most_recent 1 [reqT0, reqT1] (by decide) (by decide)

/-- C8: a `lastN` strictly larger than the number of stored groups
(respectively exchanges) makes `getConsoleLogs` return the entire grouped
console view and `getNetworkRequests` the entire network buffer, without
error. -/
theorem lastN_exceeding_buffer_returns_all (last_n : Int)
    (logs : List ConsoleEntry) (reqs : List NetworkEntry)
    (hl : StrictAscE logs) (hr : StrictAscN reqs)
    (hcl : ((dedupGroups logs).length : Int) < last_n)
    (hnr : (reqs.length : Int) < last_n) :
    get_console_logs last_n logs = dedupGroups logs ∧
    get_network_requests last_n reqs = reqs := by
  have h0 : 0 ≤ last_n := by omega
  constructor
  · rw [get_console_logs_eq_drop last_n logs hl, if_pos h0]
    have hz : (dedupGroups logs).length - last_n.toNat = 0 := by omega
    rw [hz, List.drop_zero]
  · rw [get_network_requests_eq_drop last_n reqs hr, if_pos h0]
    have hz : reqs.length - last_n.toNat = 0 := by omega
    rw [hz, List.drop_zero]

/-- Witness for C8: `lastN = 5` on one-element buffers returns everything. -/
theorem lastN_exceeding_buffer_returns_all_witness :
    get_console_logs 5 [exA0] = dedupGroups [exA0] ∧
    get_network_requests 5 [reqT0] = [reqT0] :=
  lastN_exceeding_buffer_returns_all 5 [exA0] [reqT0]
    (by decide) (by decide) (by decide) (by decide)

/-- C5: `open_url` resets both the console log and the network log to empty
before any of the new page's events are recorded, so after replaying any
sequence of console events on the reopened session, `getConsoleLogs` sees
exactly those events — no telemetry from the previous page survives. -/
theorem open_url_resets_telemetry (s : SessionState) :
    (open_url s).console_logs = [] ∧ (open_url s).network_requests = [] ∧
    ∀ (es : List ConsoleEntry) (n : Int),
      get_console_logs n
          (List.foldl (fun st e => handle_console_message e st)
            (open_url s) es).console_logs =
        get_console_logs n es := by
  refine ⟨rfl, rfl, fun es n => ?_⟩
  rw [foldl_console_logs, show (open_url s).console_logs = [] from rfl,
    List.nil_append]

/-- C6: `close` empties every handle (page, browser, engine) and both logs
and drops the initialized flag; the release calls it issues are a sublist of
page-then-browser-then-engine order, one per handle actually present; and a
second `close` on the resulting state changes nothing and issues no release
calls. -/
theorem close_releases_in_order_and_idempotent (s : SessionState) :
    (close s).1.page = false ∧ (close s).1.browser = false ∧
    (close s).1.playwright = false ∧ (close s).1.is_initialized = false ∧
    (close s).1.console_logs = [] ∧ (close s).1.network_requests = [] ∧
    (close s).2.Sublist
      [ReleaseAction.closePage, ReleaseAction.closeBrowser,
       ReleaseAction.stopPlaywright] ∧
    (ReleaseAction.closePage ∈ (close s).2 ↔ s.page = true) ∧
    (ReleaseAction.closeBrowser ∈ (close s).2 ↔ s.browser = true) ∧
    (ReleaseAction.stopPlaywright ∈ (close s).2 ↔ s.playwright = true) ∧
    close (close s).1 = ((close s).1, []) := by
  obtain ⟨pw, br, pg, cl, nr, ini⟩ := s
  cases pw <;> cases br <;> cases pg <;> simp [close]

/-- C10: the query operations are read-only on the session's stored buffers.
In the heap model — where `sorted(...)` and slicing allocate fresh list
cells and `.sort()` writes in place — both queries leave cell 0 (the buffer
object held by the session) untouched, and each returns exactly the pure
function of the buffer's contents. -/
theorem queries_readonly_on_buffers (last_n : Int) (se : Store ConsoleEntry)
    (sg : Store ConsoleGroup) (sn : Store NetworkEntry)
    (hse : 0 < se.next) (hsn : 0 < sn.next) :
    ((get_console_logs_heap last_n se sg).2.1.read 0 = se.read 0 ∧
      (get_console_logs_heap last_n se sg).1 =
        get_console_logs last_n (se.read 0)) ∧
    ((get_network_requests_heap last_n sn).2.read 0 = sn.read 0 ∧
      (get_network_requests_heap last_n sn).1 =
        get_network_requests last_n (sn.read 0)) := by
  refine ⟨⟨?_, ?_⟩, ?_, ?_⟩
  · unfold get_console_logs_heap
    by_cases h : (se.read 0).isEmpty
    · rw [if_pos h]
    · rw [if_neg h]
      simp only [Store.alloc, Store.write, Store.read]
      exact Function.update_noteq (Nat.ne_of_lt hse) _ _
  · unfold get_console_logs_heap get_console_logs
    by_cases h : (se.read 0).isEmpty
    · rw [if_pos h, if_pos h]
    · rw [if_neg h, if_neg h]
      simp only [Store.alloc, Store.write, Store.read, Function.update_same]
  · unfold get_network_requests_heap
    by_cases h : (sn.read 0).isEmpty
    · rw [if_pos h]
    · rw [if_neg h]
      simp only [Store.alloc, Store.write, Store.read]
      rw [Function.update_noteq (Nat.ne_of_lt (Nat.lt_succ_of_lt hsn)) _ _,
        Function.update_noteq (Nat.ne_of_lt (Nat.lt_succ_of_lt hsn)) _ _,
        Function.update_noteq (Nat.ne_of_lt hsn) _ _]
  · unfold get_network_requests_heap get_network_requests
    by_cases h : (sn.read 0).isEmpty
    · rw [if_pos h, if_pos h]
    · rw [if_neg h, if_neg h]
      simp only [Store.alloc, Store.write, Store.read, Function.update_same]

/-- Witness for C10 on concrete heaps: both buffers read back unchanged and
the returned values match the pure queries. -/
theorem queries_readonly_on_buffers_witness :
    ((get_console_logs_heap 1 seW sgW).2.1.read 0 = seW.read 0 ∧
      (get_console_logs_heap 1 seW sgW).1 = get_console_logs 1 (seW.read 0)) ∧
    ((get_network_requests_heap 1 snW).2.read 0 = snW.read 0 ∧
      (get_network_requests_heap 1 snW).1 =
        get_network_requests 1 (snW.read 0)) :=
  queries_readonly_on_buffers 1 seW sgW snW (by decide) (by decide)

end PlaywrightMCP
